import Mathlib

/-! The package natssecuremsg: a sign-then-encrypt envelope.

A shallow embedding of `main.go` (package `natssecuremsg`).

* A Go `[]byte` is a list of bytes; a nil slice and an empty slice are both `[]`.
* A Go `*T` is an `Option T`; `nil` is `none`.
* A Go `error` result is `Outcome.err`; a run-time fault of the Go program
  (nil dereference, slice bounds, the abort inside `crypto/rand.Read`) is
  `Outcome.crash`.
* The `signer` of `NewSecureMessage` is an interface value that may be nil, an
  `Option KeyPair`; calling `Sign` on nil faults. The `sender` of `Encrypt` and
  the `receiver` of `Decrypt` are key pairs that exist: every statement about
  them is conditional on what `Seal` or `Open` returned.
* The source fixes no Go toolchain, so `crypto/rand.Read` has both behaviours:
  it returns with the bytes supplied and an error value (the only behaviour up
  to Go 1.23), or it aborts the process (what it does since Go 1.24 when the
  reader fails; there it returns only with the buffer filled and a nil error).
* The library calls the package makes (`time`, `crypto/rand`, `encoding/json`,
  `nkeys`) are the fields of `Lib`; every operation also returns the list of
  library calls it made, in order.
-/

namespace natssecuremsg

/-! ## Data model -/

abbrev Byte := Fin 256

abbrev Bytes := List Byte

/-- The constant `SignatureSize = 64`. -/
def SignatureSize : Nat := 64

/-- A Go `error` value: either handed back by a library call, or built in the
package with `errors.New`. -/
inductive Error where
  | lib (msg : String)
  | errorsNew (text : String)
  deriving DecidableEq, Repr

/-- Run-time faults of the Go program. -/
inductive Fault where
  | nilDereference
  | sliceOutOfRange
  | readFatal
  deriving DecidableEq, Repr

/-- What a call of `crypto/rand.Read` does: it returns, having supplied `got`
and reporting `err` (`none` for nil), or it aborts the process. -/
inductive ReadResult where
  | returned (got : Bytes) (err : Option Error)
  | fatal
  deriving DecidableEq, Repr

/-- How a call ends: it returns a value with a nil error, it returns a non-nil
error, or the program faults. -/
inductive Outcome (α : Type) where
  | ok (a : α)
  | err (e : Error)
  | crash (f : Fault)
  deriving DecidableEq, Repr

/-- The struct `envelope[T]`. -/
structure envelope (T Time : Type) where
  Timestamp : Time
  Nonce : String
  Payload : T
  deriving DecidableEq, Repr

/-- The struct `SecureMessage[T]`. -/
structure SecureMessage (T Time : Type) where
  Payload : Option T
  Nonce : String
  Timestamp : Time
  Signature : Bytes
  Encrypted : Bytes
  deriving DecidableEq, Repr

/-- The library calls of the package, with their arguments. -/
inductive Call (T Time KeyPair : Type) where
  | Now
  | Read (n : Nat)
  | Marshal (e : envelope T Time)
  | Unmarshal (data : Bytes)
  | Sign (k : KeyPair) (input : Bytes)
  | Verify (k : KeyPair) (input sig : Bytes)
  | Seal (k : KeyPair) (input : Bytes) (recipient : String)
  | Open (k : KeyPair) (input : Bytes) (sender : String)
  | FromPublicKey (pub : String)
  deriving DecidableEq, Repr

/-- The libraries the package calls. `Read n` is `crypto/rand.Read` on a buffer
of `n` bytes. `Verify` returns the error, `none` for nil. `zero` is the zero
`time.Time`. -/
structure Lib (T Time KeyPair : Type) where
  zero : Time
  Now : Time
  UTC : Time → Time
  Read : Nat → ReadResult
  Marshal : envelope T Time → Except Error Bytes
  Unmarshal : Bytes → Except Error (envelope T Time)
  Sign : KeyPair → Bytes → Except Error Bytes
  Verify : KeyPair → Bytes → Bytes → Option Error
  Seal : KeyPair → Bytes → String → Except Error Bytes
  Open : KeyPair → Bytes → String → Except Error Bytes
  FromPublicKey : String → Except Error KeyPair

/-- What a method on `*SecureMessage[T]` leaves behind: its result, the message
after the call, and the library calls made. -/
structure Ran (T Time KeyPair : Type) where
  out : Outcome Unit
  msg : SecureMessage T Time
  calls : List (Call T Time KeyPair)

/-- What `NewSecureMessage` leaves behind: its result and the library calls
made. -/
structure Made (T Time KeyPair : Type) where
  out : Outcome (SecureMessage T Time)
  calls : List (Call T Time KeyPair)

/-! ## Go built-ins and `encoding/hex` -/

/-- The built-in `make([]byte, n)`: `n` zero bytes. -/
def make (n : Nat) : Bytes := List.replicate n 0

/-- The buffer `b` after a read that supplied `got`: the bytes supplied
overwrite the front of `b`, the rest of `b` is untouched. -/
def readInto (b got : Bytes) : Bytes := got.take b.length ++ b.drop got.length

/-- The slice expression `s[lo:hi]`, `none` when the bounds are out of range. -/
def slice (s : Bytes) (lo hi : Int) : Option Bytes :=
  if 0 ≤ lo ∧ lo ≤ hi ∧ hi ≤ (s.length : Int) then
    some ((s.take hi.toNat).drop lo.toNat)
  else none

/-- The constant `hextable = "0123456789abcdef"` of `encoding/hex`. -/
def hextable : List Char :=
  ['0', '1', '2', '3', '4', '5', '6', '7', '8', '9', 'a', 'b', 'c', 'd', 'e', 'f']

/-- The function `hex.EncodeToString`: two characters per byte, `hextable[v>>4]` then
`hextable[v&0x0f]`. -/
def EncodeToString (src : Bytes) : String :=
  String.mk (src.flatMap fun v => [hextable.getD (v.val / 16) '0', hextable.getD (v.val % 16) '0'])

/-- The function `fromHexChar` of `encoding/hex`: the value of one hex digit. -/
def fromHexChar (c : Char) : Option Nat :=
  if '0' ≤ c ∧ c ≤ '9' then some (c.toNat - '0'.toNat)
  else if 'a' ≤ c ∧ c ≤ 'f' then some (c.toNat - 'a'.toNat + 10)
  else if 'A' ≤ c ∧ c ≤ 'F' then some (c.toNat - 'A'.toNat + 10)
  else none

/-- The loop of `hex.Decode`: each pair of digits `a`, `b` gives the byte
`(a << 4) | b`; an odd length or a character that is no hex digit is an error. -/
def decodePairs : List Char → Option Bytes
  | [] => some []
  | [_] => none
  | a :: b :: rest =>
    match fromHexChar a, fromHexChar b, decodePairs rest with
    | some x, some y, some t => some (Fin.ofNat (x * 16 + y) :: t)
    | _, _, _ => none

/-- The function `hex.DecodeString`. The package never calls it; it says what the
hex encoding of a buffer is. -/
def DecodeString (s : String) : Option Bytes := decodePairs s.data

/-! ## The package -/

section Package

variable {T Time KeyPair : Type}

/-- The function `generateNonce`: a 16-byte buffer, `rand.Read(b)` with both results
dropped, then the hex encoding of the buffer. The result is `none` when
`rand.Read` aborts the process. -/
def generateNonce (L : Lib T Time KeyPair) : Option String × List (Call T Time KeyPair) :=
  let b := make 16
  match L.Read 16 with
  | .fatal => (none, [Call.Read 16])
  | .returned got _ => (some (EncodeToString (readInto b got)), [Call.Read 16])

/-- The function `NewSecureMessage(payload, signer)`. The clock and the random source are
read first, the payload pointer is dereferenced when the envelope is built, and
`signer.Sign` is called after `json.Marshal` has succeeded. -/
def NewSecureMessage (L : Lib T Time KeyPair) (payload : Option T) (signer : Option KeyPair) :
    Made T Time KeyPair :=
  let ts := L.UTC L.Now
  let c0 : List (Call T Time KeyPair) := Call.Now :: (generateNonce L).2
  match (generateNonce L).1 with
  | none => ⟨.crash .readFatal, c0⟩
  | some nonce =>
    match payload with
    | none => ⟨.crash .nilDereference, c0⟩
    | some p =>
      let wrapped : envelope T Time := { Timestamp := ts, Nonce := nonce, Payload := p }
      match L.Marshal wrapped with
      | .error e => ⟨.err e, c0 ++ [.Marshal wrapped]⟩
      | .ok encoded =>
        match signer with
        | none => ⟨.crash .nilDereference, c0 ++ [.Marshal wrapped]⟩
        | some k =>
          match L.Sign k encoded with
          | .error e => ⟨.err e, c0 ++ [.Marshal wrapped, .Sign k encoded]⟩
          | .ok sig =>
            ⟨.ok { Payload := payload, Timestamp := ts, Nonce := nonce, Signature := sig,
                   Encrypted := [] },
             c0 ++ [.Marshal wrapped, .Sign k encoded]⟩

/-- The method `(m *SecureMessage[T]) Encrypt(sender, recipientPub)`. -/
def Encrypt (L : Lib T Time KeyPair) (m : SecureMessage T Time) (sender : KeyPair)
    (recipientPub : String) : Ran T Time KeyPair :=
  match m.Payload with
  | none => ⟨.crash .nilDereference, m, []⟩
  | some p =>
    let wrapped : envelope T Time := { Timestamp := m.Timestamp, Nonce := m.Nonce, Payload := p }
    match L.Marshal wrapped with
    | .error e => ⟨.err e, m, [.Marshal wrapped]⟩
    | .ok plain =>
      let combined := plain ++ m.Signature
      match L.Seal sender combined recipientPub with
      | .error e => ⟨.err e, m, [.Marshal wrapped, .Seal sender combined recipientPub]⟩
      | .ok encrypted =>
        ⟨.ok (), { m with Encrypted := encrypted },
         [.Marshal wrapped, .Seal sender combined recipientPub]⟩

/-- The method `(m *SecureMessage[T]) Decrypt(receiver, senderEncPub, senderSigPub)`.
The signature field is assigned right after the length check, before the key is
parsed. -/
def Decrypt (L : Lib T Time KeyPair) (m : SecureMessage T Time) (receiver : KeyPair)
    (senderEncPub senderSigPub : String) : Ran T Time KeyPair :=
  let c0 : List (Call T Time KeyPair) := [.Open receiver m.Encrypted senderEncPub]
  match L.Open receiver m.Encrypted senderEncPub with
  | .error e => ⟨.err e, m, c0⟩
  | .ok decrypted =>
    if decrypted.length < SignatureSize then
      ⟨.err (.errorsNew "invalid decrypted length"), m, c0⟩
    else
      match slice decrypted 0 ((decrypted.length : Int) - SignatureSize) with
      | none => ⟨.crash .sliceOutOfRange, m, c0⟩
      | some content =>
        match slice decrypted ((decrypted.length : Int) - SignatureSize) decrypted.length with
        | none => ⟨.crash .sliceOutOfRange, m, c0⟩
        | some sig =>
          let m1 : SecureMessage T Time := { m with Signature := sig }
          let c1 := c0 ++ [.FromPublicKey senderSigPub]
          match L.FromPublicKey senderSigPub with
          | .error e => ⟨.err e, m1, c1⟩
          | .ok pubKP =>
            let c2 := c1 ++ [.Verify pubKP content m1.Signature]
            match L.Verify pubKP content m1.Signature with
            | some e => ⟨.err e, m1, c2⟩
            | none =>
              let c3 := c2 ++ [.Unmarshal content]
              match L.Unmarshal content with
              | .error e => ⟨.err e, m1, c3⟩
              | .ok wrapped =>
                ⟨.ok (),
                 { m1 with Payload := some wrapped.Payload, Nonce := wrapped.Nonce,
                           Timestamp := wrapped.Timestamp },
                 c3⟩

/-- The message `var msg SecureMessage[T]; msg.Encrypted = enc`: every other field
is zero. -/
def fresh (L : Lib T Time KeyPair) (enc : Bytes) : SecureMessage T Time :=
  { Payload := none, Nonce := "", Timestamp := L.zero, Signature := [], Encrypted := enc }

end Package

/-! ## A small concrete library

Payloads, times and key pairs are numbers. The codec writes the timestamp, the
payload and then the nonce characters, one byte each. A key pair signs with 64
copies of its own number; sealing puts one byte in front. -/

/-- The codec of the small library, encoding side. -/
def demoMarshal (e : envelope Nat Nat) : Except Error Bytes :=
  if e.Payload < 256 then
    .ok (Fin.ofNat e.Timestamp :: Fin.ofNat e.Payload :: e.Nonce.data.map fun c => Fin.ofNat c.toNat)
  else .error (.lib "json: unsupported value")

/-- The codec of the small library, decoding side. -/
def demoUnmarshal (data : Bytes) : Except Error (envelope Nat Nat) :=
  match data with
  | t :: p :: rest =>
    .ok { Timestamp := t.val, Payload := p.val,
          Nonce := String.mk (rest.map fun b => Char.ofNat b.val) }
  | _ => .error (.lib "unexpected end of JSON input")

/-- The small library: key pair `k` signs with 64 copies of `k`, the public key
strings `"alice"` and `"bob"` stand for the key pairs 1 and 2. -/
def demo : Lib Nat Nat Nat where
  zero := 0
  Now := 7
  UTC := id
  Read := fun n => .returned (List.replicate n 0xab) none
  Marshal := demoMarshal
  Unmarshal := demoUnmarshal
  Sign := fun k _ => if k = 0 then .error (.lib "nkeys: invalid seed") else .ok (List.replicate 64 (Fin.ofNat k))
  Verify := fun k _ sig =>
    if sig = List.replicate 64 (Fin.ofNat k) then none else some (.lib "nkeys: signature verification failed")
  Seal := fun _ input recipient =>
    if recipient = "" then .error (.lib "nkeys: invalid public key") else .ok (0 :: input)
  Open := fun _ input _ =>
    match input with
    | _ :: rest => .ok rest
    | [] => .error (.lib "nkeys: decryption failed")
  FromPublicKey := fun pub =>
    if pub = "alice" then .ok 1 else if pub = "bob" then .ok 2
    else .error (.lib "nkeys: invalid public key")

/-- The small library with a random source that supplies nothing and reports an
error, as `crypto/rand.Read` can up to Go 1.23. -/
def demoNoEntropy : Lib Nat Nat Nat :=
  { demo with
    Read := fun _ => .returned [] (some (.lib "read /dev/urandom: input/output error")) }

/-- The small library with a random source whose failure aborts the process, as
in `crypto/rand.Read` since Go 1.24. -/
def demoFatal : Lib Nat Nat Nat :=
  { demo with Read := fun _ => .fatal }

/-- A signed message of the small library. -/
def demoSigned : SecureMessage Nat Nat :=
  { Payload := some 5, Nonce := "ab", Timestamp := 7, Signature := List.replicate 64 1,
    Encrypted := [] }

/-- A received message whose plaintext is three bytes long. -/
def demoShort : SecureMessage Nat Nat := fresh demo [0, 1, 2, 3]

/-- A received message whose plaintext is two content bytes followed by 64
bytes that no key of the small library accepts as a signature. -/
def demoForged : SecureMessage Nat Nat := fresh demo (0 :: 7 :: 5 :: List.replicate 64 9)

/-- A received message whose plaintext is two content bytes followed by the
signature of key pair 1. -/
def demoGood : SecureMessage Nat Nat := fresh demo (0 :: 7 :: 5 :: List.replicate 64 1)

/-- The message key pair 1 makes for payload 5 with the small library. -/
def demoSent : SecureMessage Nat Nat :=
  { Payload := some 5, Nonce := "abababababababababababababababab", Timestamp := 7,
    Signature := List.replicate 64 1, Encrypted := [] }

/-! ## Slices and the hex encoding -/

theorem slice_content (d : Bytes) (h : SignatureSize ≤ d.length) :
    slice d 0 ((d.length : Int) - SignatureSize) = some (d.take (d.length - SignatureSize)) := by
  have h1 : (0 : Int) ≤ (d.length : Int) - (SignatureSize : Int) := by omega
  have h2 : ((d.length : Int) - (SignatureSize : Int)).toNat = d.length - SignatureSize := by omega
  have h3 : (d.length : Int) - (SignatureSize : Int) ≤ (d.length : Int) := by omega
  simp [slice, h1, h2, h3]

theorem slice_signature (d : Bytes) (h : SignatureSize ≤ d.length) :
    slice d ((d.length : Int) - SignatureSize) d.length
      = some (d.drop (d.length - SignatureSize)) := by
  have h1 : (0 : Int) ≤ (d.length : Int) - (SignatureSize : Int) := by omega
  have h2 : ((d.length : Int) - (SignatureSize : Int)).toNat = d.length - SignatureSize := by omega
  have h3 : (d.length : Int) - (SignatureSize : Int) ≤ (d.length : Int) := by omega
  simp [slice, h1, h2, h3]

theorem length_readInto (b got : Bytes) : (readInto b got).length = b.length := by
  simp [readInto]
  omega

theorem readInto_full (b got : Bytes) (h : got.length = b.length) : readInto b got = got := by
  simp [readInto, ← h]

theorem length_EncodeToString (src : Bytes) : (EncodeToString src).length = 2 * src.length := by
  have key : ∀ (f : Byte → Char) (g : Byte → Char) (l : Bytes),
      (l.flatMap fun v => [f v, g v]).length = 2 * l.length := by
    intro f g l
    induction l with
    | nil => rfl
    | cons v t ih =>
      simp only [List.flatMap_cons, List.length_append, List.length_cons, List.length_nil, ih]
      omega
  simpa [EncodeToString, String.length] using key _ _ src

theorem fromHexChar_hextable (n : Nat) (h : n < 16) :
    fromHexChar (hextable.getD n '0') = some n := by
  interval_cases n <;> rfl

theorem hextable_getD_mem (n : Nat) (h : n < 16) : hextable.getD n '0' ∈ hextable := by
  interval_cases n <;> simp [hextable]

theorem DecodeString_EncodeToString (src : Bytes) :
    DecodeString (EncodeToString src) = some src := by
  show decodePairs (src.flatMap fun v =>
    [hextable.getD (v.val / 16) '0', hextable.getD (v.val % 16) '0']) = some src
  induction src with
  | nil => rfl
  | cons v t ih =>
    have hv : (Fin.ofNat (v.val / 16 * 16 + v.val % 16) : Byte) = v := by
      apply Fin.ext
      show (v.val / 16 * 16 + v.val % 16) % 256 = v.val
      have := v.isLt
      omega
    have hhi : v.val / 16 < 16 := by
      have := v.isLt
      omega
    have hlo : v.val % 16 < 16 := Nat.mod_lt _ (by decide)
    show decodePairs (hextable.getD (v.val / 16) '0' :: hextable.getD (v.val % 16) '0' ::
      (t.flatMap fun v => [hextable.getD (v.val / 16) '0', hextable.getD (v.val % 16) '0']))
      = some (v :: t)
    rw [decodePairs, fromHexChar_hextable _ hhi, fromHexChar_hextable _ hlo, ih]
    simp only [hv]

theorem EncodeToString_alphabet (src : Bytes) (c : Char) (hc : c ∈ (EncodeToString src).data) :
    c ∈ hextable := by
  simp only [EncodeToString, List.mem_flatMap, List.mem_cons, List.mem_singleton,
    List.not_mem_nil, or_false] at hc
  obtain ⟨v, -, h | h⟩ := hc
  · rw [h]
    exact hextable_getD_mem _ (by have := v.isLt; omega)
  · rw [h]
    exact hextable_getD_mem _ (Nat.mod_lt _ (by decide))

section Proofs

variable {T Time KeyPair : Type}

/-! ## `Decrypt`, one step at a time -/

theorem Decrypt_open_error (L : Lib T Time KeyPair) (m : SecureMessage T Time)
    (receiver : KeyPair) (senderEncPub senderSigPub : String) (e : Error)
    (hopen : L.Open receiver m.Encrypted senderEncPub = .error e) :
    Decrypt L m receiver senderEncPub senderSigPub
      = ⟨.err e, m, [.Open receiver m.Encrypted senderEncPub]⟩ := by
  simp [Decrypt, hopen]

theorem Decrypt_short (L : Lib T Time KeyPair) (m : SecureMessage T Time)
    (receiver : KeyPair) (senderEncPub senderSigPub : String) (d : Bytes)
    (hopen : L.Open receiver m.Encrypted senderEncPub = .ok d)
    (hshort : d.length < SignatureSize) :
    Decrypt L m receiver senderEncPub senderSigPub
      = ⟨.err (.errorsNew "invalid decrypted length"), m,
         [.Open receiver m.Encrypted senderEncPub]⟩ := by
  simp [Decrypt, hopen, hshort]

theorem Decrypt_key_error (L : Lib T Time KeyPair) (m : SecureMessage T Time)
    (receiver : KeyPair) (senderEncPub senderSigPub : String) (d : Bytes) (e : Error)
    (hopen : L.Open receiver m.Encrypted senderEncPub = .ok d)
    (hlen : SignatureSize ≤ d.length)
    (hkey : L.FromPublicKey senderSigPub = .error e) :
    Decrypt L m receiver senderEncPub senderSigPub
      = ⟨.err e, { m with Signature := d.drop (d.length - SignatureSize) },
         [.Open receiver m.Encrypted senderEncPub, .FromPublicKey senderSigPub]⟩ := by
  simp [Decrypt, hopen, Nat.not_lt.mpr hlen, slice_content d hlen, slice_signature d hlen, hkey]

theorem Decrypt_verify_error (L : Lib T Time KeyPair) (m : SecureMessage T Time)
    (receiver : KeyPair) (senderEncPub senderSigPub : String) (d : Bytes) (k : KeyPair)
    (e : Error)
    (hopen : L.Open receiver m.Encrypted senderEncPub = .ok d)
    (hlen : SignatureSize ≤ d.length)
    (hkey : L.FromPublicKey senderSigPub = .ok k)
    (hver : L.Verify k (d.take (d.length - SignatureSize)) (d.drop (d.length - SignatureSize))
      = some e) :
    Decrypt L m receiver senderEncPub senderSigPub
      = ⟨.err e, { m with Signature := d.drop (d.length - SignatureSize) },
         [.Open receiver m.Encrypted senderEncPub, .FromPublicKey senderSigPub,
          .Verify k (d.take (d.length - SignatureSize)) (d.drop (d.length - SignatureSize))]⟩ := by
  simp [Decrypt, hopen, Nat.not_lt.mpr hlen, slice_content d hlen, slice_signature d hlen, hkey,
    hver]

theorem Decrypt_unmarshal_error (L : Lib T Time KeyPair) (m : SecureMessage T Time)
    (receiver : KeyPair) (senderEncPub senderSigPub : String) (d : Bytes) (k : KeyPair)
    (e : Error)
    (hopen : L.Open receiver m.Encrypted senderEncPub = .ok d)
    (hlen : SignatureSize ≤ d.length)
    (hkey : L.FromPublicKey senderSigPub = .ok k)
    (hver : L.Verify k (d.take (d.length - SignatureSize)) (d.drop (d.length - SignatureSize))
      = none)
    (hdec : L.Unmarshal (d.take (d.length - SignatureSize)) = .error e) :
    Decrypt L m receiver senderEncPub senderSigPub
      = ⟨.err e, { m with Signature := d.drop (d.length - SignatureSize) },
         [.Open receiver m.Encrypted senderEncPub, .FromPublicKey senderSigPub,
          .Verify k (d.take (d.length - SignatureSize)) (d.drop (d.length - SignatureSize)),
          .Unmarshal (d.take (d.length - SignatureSize))]⟩ := by
  simp [Decrypt, hopen, Nat.not_lt.mpr hlen, slice_content d hlen, slice_signature d hlen, hkey,
    hver, hdec]

theorem Decrypt_success (L : Lib T Time KeyPair) (m : SecureMessage T Time)
    (receiver : KeyPair) (senderEncPub senderSigPub : String) (d : Bytes) (k : KeyPair)
    (w : envelope T Time)
    (hopen : L.Open receiver m.Encrypted senderEncPub = .ok d)
    (hlen : SignatureSize ≤ d.length)
    (hkey : L.FromPublicKey senderSigPub = .ok k)
    (hver : L.Verify k (d.take (d.length - SignatureSize)) (d.drop (d.length - SignatureSize))
      = none)
    (hdec : L.Unmarshal (d.take (d.length - SignatureSize)) = .ok w) :
    Decrypt L m receiver senderEncPub senderSigPub
      = ⟨.ok (),
         { Payload := some w.Payload, Nonce := w.Nonce, Timestamp := w.Timestamp,
           Signature := d.drop (d.length - SignatureSize), Encrypted := m.Encrypted },
         [.Open receiver m.Encrypted senderEncPub, .FromPublicKey senderSigPub,
          .Verify k (d.take (d.length - SignatureSize)) (d.drop (d.length - SignatureSize)),
          .Unmarshal (d.take (d.length - SignatureSize))]⟩ := by
  simp [Decrypt, hopen, Nat.not_lt.mpr hlen, slice_content d hlen, slice_signature d hlen, hkey,
    hver, hdec]

/-! ## `NewSecureMessage` followed by `Encrypt` -/

theorem NewSecureMessage_returned (L : Lib T Time KeyPair) (payload : Option T)
    (signer : Option KeyPair) (got : Bytes) (err : Option Error)
    (hread : L.Read 16 = .returned got err) :
    NewSecureMessage L payload signer =
      match payload with
      | none => ⟨.crash .nilDereference, [.Now, .Read 16]⟩
      | some p =>
        match L.Marshal ⟨L.UTC L.Now, EncodeToString (readInto (make 16) got), p⟩ with
        | .error e =>
          ⟨.err e, [.Now, .Read 16,
            .Marshal ⟨L.UTC L.Now, EncodeToString (readInto (make 16) got), p⟩]⟩
        | .ok encoded =>
          match signer with
          | none =>
            ⟨.crash .nilDereference, [.Now, .Read 16,
              .Marshal ⟨L.UTC L.Now, EncodeToString (readInto (make 16) got), p⟩]⟩
          | some k =>
            match L.Sign k encoded with
            | .error e =>
              ⟨.err e, [.Now, .Read 16,
                .Marshal ⟨L.UTC L.Now, EncodeToString (readInto (make 16) got), p⟩,
                .Sign k encoded]⟩
            | .ok sig =>
              ⟨.ok ⟨payload, EncodeToString (readInto (make 16) got), L.UTC L.Now, sig, []⟩,
               [.Now, .Read 16,
                .Marshal ⟨L.UTC L.Now, EncodeToString (readInto (make 16) got), p⟩,
                .Sign k encoded]⟩ := by
  unfold NewSecureMessage
  simp only [generateNonce, hread]
  cases payload with
  | none => rfl
  | some p =>
    simp only
    cases L.Marshal ⟨L.UTC L.Now, EncodeToString (readInto (make 16) got), p⟩ with
    | error e => rfl
    | ok encoded =>
      simp only
      cases signer with
      | none => rfl
      | some k =>
        simp only
        cases L.Sign k encoded <;> rfl

theorem NewSecureMessage_fatal (L : Lib T Time KeyPair) (payload : Option T)
    (signer : Option KeyPair) (hread : L.Read 16 = .fatal) :
    NewSecureMessage L payload signer = ⟨.crash .readFatal, [.Now, .Read 16]⟩ := by
  unfold NewSecureMessage
  simp only [generateNonce, hread]

theorem NewSecureMessage_nil_signer (L : Lib T Time KeyPair) (P : T) (got encoded : Bytes)
    (err : Option Error) (hread : L.Read 16 = .returned got err)
    (hmar : L.Marshal ⟨L.UTC L.Now, EncodeToString (readInto (make 16) got), P⟩ = .ok encoded) :
    (NewSecureMessage L (some P) none).out = .crash .nilDereference := by
  rw [NewSecureMessage_returned L (some P) none got err hread]
  simp only [hmar]

theorem NewSecureMessage_ok_inv (L : Lib T Time KeyPair) (P : T) (signer : KeyPair)
    (m : SecureMessage T Time)
    (hnew : (NewSecureMessage L (some P) (some signer)).out = .ok m) :
    ∃ encoded, m.Payload = some P ∧
      m.Timestamp = L.UTC L.Now ∧
      (∃ got err, L.Read 16 = .returned got err ∧
        m.Nonce = EncodeToString (readInto (make 16) got)) ∧
      m.Encrypted = [] ∧
      L.Marshal { Timestamp := m.Timestamp, Nonce := m.Nonce, Payload := P } = .ok encoded ∧
      L.Sign signer encoded = .ok m.Signature := by
  cases hread : L.Read 16 with
  | fatal =>
    rw [NewSecureMessage_fatal L (some P) (some signer) hread] at hnew
    cases hnew
  | returned got err =>
    rw [NewSecureMessage_returned L (some P) (some signer) got err hread] at hnew
    simp only at hnew
    cases hmar : L.Marshal ⟨L.UTC L.Now, EncodeToString (readInto (make 16) got), P⟩ with
    | error e =>
      rw [hmar] at hnew
      cases hnew
    | ok encoded =>
      rw [hmar] at hnew
      simp only at hnew
      cases hsig : L.Sign signer encoded with
      | error e =>
        rw [hsig] at hnew
        cases hnew
      | ok sig =>
        rw [hsig] at hnew
        simp only [Outcome.ok.injEq] at hnew
        subst hnew
        exact ⟨encoded, rfl, rfl, ⟨got, err, rfl, rfl⟩, rfl, hmar, hsig⟩

theorem Encrypt_ok_inv (L : Lib T Time KeyPair) (m : SecureMessage T Time) (sender : KeyPair)
    (recipientPub : String) (P : T) (encoded : Bytes) (hp : m.Payload = some P)
    (hmar : L.Marshal { Timestamp := m.Timestamp, Nonce := m.Nonce, Payload := P } = .ok encoded)
    (henc : (Encrypt L m sender recipientPub).out = .ok ()) :
    L.Seal sender (encoded ++ m.Signature) recipientPub
        = .ok (Encrypt L m sender recipientPub).msg.Encrypted ∧
      (Encrypt L m sender recipientPub).msg.Signature = m.Signature := by
  unfold Encrypt at henc ⊢
  cases hseal : L.Seal sender (encoded ++ m.Signature) recipientPub with
  | error e => simp [hp, hmar, hseal] at henc
  | ok c => simp [hp, hmar, hseal]

theorem take_content (a sig : Bytes) (h : sig.length = SignatureSize) :
    (a ++ sig).take ((a ++ sig).length - SignatureSize) = a := by
  have : (a ++ sig).length - SignatureSize = a.length := by
    simp only [List.length_append]
    omega
  rw [this]
  simp

theorem drop_signature (a sig : Bytes) (h : sig.length = SignatureSize) :
    (a ++ sig).drop ((a ++ sig).length - SignatureSize) = sig := by
  have : (a ++ sig).length - SignatureSize = a.length := by
    simp only [List.length_append]
    omega
  rw [this]
  simp

/-! ## Receive track -/

/-- C2 (truncation). When opening `m.Encrypted` succeeds with fewer than
`SignatureSize` = 64 bytes, `Decrypt` returns the error
`errors.New("invalid decrypted length")` (an error, not a slice fault), the only
library call it has made is `Open` (no key parsing, no `Verify`, no
`Unmarshal`), and the message is exactly the message before the call. This
holds for every sender signing key string, malformed ones included. -/
theorem Decrypt_truncated (L : Lib T Time KeyPair) (m : SecureMessage T Time)
    (receiver : KeyPair) (senderEncPub senderSigPub : String) (d : Bytes)
    (hopen : L.Open receiver m.Encrypted senderEncPub = .ok d)
    (hshort : d.length < SignatureSize) :
    (Decrypt L m receiver senderEncPub senderSigPub).out
        = .err (.errorsNew "invalid decrypted length") ∧
      (Decrypt L m receiver senderEncPub senderSigPub).calls
        = [.Open receiver m.Encrypted senderEncPub] ∧
      (Decrypt L m receiver senderEncPub senderSigPub).msg = m := by
  rw [Decrypt_short L m receiver senderEncPub senderSigPub d hopen hshort]
  exact ⟨rfl, rfl, rfl⟩

/-- C3 (verify before decode). When opening succeeds with at least 64 bytes and
the sender signing key parses, but `Verify` rejects the last 64 bytes as a
signature over the bytes before them, `Decrypt` returns the error `Verify`
returned, its library calls are `Open`, `FromPublicKey`, `Verify` and nothing
else (so `Unmarshal` is never called), and payload, nonce and timestamp are
those of the message before the call. -/
theorem Decrypt_verify_before_decode (L : Lib T Time KeyPair) (m : SecureMessage T Time)
    (receiver : KeyPair) (senderEncPub senderSigPub : String) (d : Bytes) (k : KeyPair)
    (e : Error)
    (hopen : L.Open receiver m.Encrypted senderEncPub = .ok d)
    (hlen : SignatureSize ≤ d.length)
    (hkey : L.FromPublicKey senderSigPub = .ok k)
    (hver : L.Verify k (d.take (d.length - SignatureSize)) (d.drop (d.length - SignatureSize))
      = some e) :
    (Decrypt L m receiver senderEncPub senderSigPub).out = .err e ∧
      (Decrypt L m receiver senderEncPub senderSigPub).calls
        = [.Open receiver m.Encrypted senderEncPub, .FromPublicKey senderSigPub,
           .Verify k (d.take (d.length - SignatureSize)) (d.drop (d.length - SignatureSize))] ∧
      (∀ data, Call.Unmarshal data ∉ (Decrypt L m receiver senderEncPub senderSigPub).calls) ∧
      (Decrypt L m receiver senderEncPub senderSigPub).msg.Payload = m.Payload ∧
      (Decrypt L m receiver senderEncPub senderSigPub).msg.Nonce = m.Nonce ∧
      (Decrypt L m receiver senderEncPub senderSigPub).msg.Timestamp = m.Timestamp := by
  rw [Decrypt_verify_error L m receiver senderEncPub senderSigPub d k e hopen hlen hkey hver]
  refine ⟨rfl, rfl, ?_, rfl, rfl, rfl⟩
  intro data hmem
  simp at hmem

/-- C6 (when `Decrypt` succeeds). `Decrypt` returns nil exactly when opening
`m.Encrypted` gives a plaintext `d` of at least 64 bytes, the sender signing key
string parses, `Verify` accepts `d[len-64:]` as a signature over `d[:len-64]`,
and `d[:len-64]` decodes to an envelope. After a successful call the signature
is the last 64 bytes of `d`, payload, nonce and timestamp are the decoded
envelope's, content followed by signature is `d`, and `Encrypted` is as
before. -/
theorem Decrypt_success_iff (L : Lib T Time KeyPair) (m : SecureMessage T Time)
    (receiver : KeyPair) (senderEncPub senderSigPub : String) :
    ((Decrypt L m receiver senderEncPub senderSigPub).out = .ok () ↔
      ∃ d k w, L.Open receiver m.Encrypted senderEncPub = .ok d ∧
        SignatureSize ≤ d.length ∧
        L.FromPublicKey senderSigPub = .ok k ∧
        L.Verify k (d.take (d.length - SignatureSize)) (d.drop (d.length - SignatureSize))
          = none ∧
        L.Unmarshal (d.take (d.length - SignatureSize)) = .ok w) ∧
    (∀ d w, (Decrypt L m receiver senderEncPub senderSigPub).out = .ok () →
      L.Open receiver m.Encrypted senderEncPub = .ok d →
      L.Unmarshal (d.take (d.length - SignatureSize)) = .ok w →
      (Decrypt L m receiver senderEncPub senderSigPub).msg.Signature
          = d.drop (d.length - SignatureSize) ∧
        (Decrypt L m receiver senderEncPub senderSigPub).msg.Signature.length
          = SignatureSize ∧
        (Decrypt L m receiver senderEncPub senderSigPub).msg.Payload = some w.Payload ∧
        (Decrypt L m receiver senderEncPub senderSigPub).msg.Nonce = w.Nonce ∧
        (Decrypt L m receiver senderEncPub senderSigPub).msg.Timestamp = w.Timestamp ∧
        d.take (d.length - SignatureSize)
            ++ (Decrypt L m receiver senderEncPub senderSigPub).msg.Signature = d ∧
        (Decrypt L m receiver senderEncPub senderSigPub).msg.Encrypted = m.Encrypted) := by
  cases hopen : L.Open receiver m.Encrypted senderEncPub with
  | error e =>
    rw [Decrypt_open_error L m receiver senderEncPub senderSigPub e hopen]
    simp
  | ok d =>
    by_cases hshort : d.length < SignatureSize
    · rw [Decrypt_short L m receiver senderEncPub senderSigPub d hopen hshort]
      refine ⟨⟨fun h => by simp at h, ?_⟩, fun _ _ h => by simp at h⟩
      rintro ⟨d', k, w, hd, hlen, -⟩
      cases hd
      omega
    · have hlen : SignatureSize ≤ d.length := Nat.not_lt.mp hshort
      cases hkey : L.FromPublicKey senderSigPub with
      | error e =>
        rw [Decrypt_key_error L m receiver senderEncPub senderSigPub d e hopen hlen hkey]
        simp
      | ok k =>
        cases hver : L.Verify k (d.take (d.length - SignatureSize))
            (d.drop (d.length - SignatureSize)) with
        | some e =>
          rw [Decrypt_verify_error L m receiver senderEncPub senderSigPub d k e hopen hlen hkey
            hver]
          refine ⟨⟨fun h => by simp at h, ?_⟩, fun _ _ h => by simp at h⟩
          rintro ⟨d', k', w, hd, -, hk, hv, -⟩
          cases hd
          cases hk
          rw [hver] at hv
          cases hv
        | none =>
          cases hdec : L.Unmarshal (d.take (d.length - SignatureSize)) with
          | error e =>
            rw [Decrypt_unmarshal_error L m receiver senderEncPub senderSigPub d k e hopen hlen
              hkey hver hdec]
            refine ⟨⟨fun h => by simp at h, ?_⟩, fun _ _ h => by simp at h⟩
            rintro ⟨d', k', w, hd, -, -, -, hw⟩
            cases hd
            rw [hdec] at hw
            cases hw
          | ok w =>
            rw [Decrypt_success L m receiver senderEncPub senderSigPub d k w hopen hlen hkey
              hver hdec]
            refine ⟨⟨fun _ => ⟨d, k, w, rfl, hlen, rfl, hver, hdec⟩, fun _ => rfl⟩, ?_⟩
            intro d' w' _ hd hw
            cases hd
            rw [hdec] at hw
            cases hw
            refine ⟨rfl, ?_, rfl, rfl, rfl, ?_, rfl⟩
            · simp only [List.length_drop]
              omega
            · exact List.take_append_drop _ _

/-! ## Send track -/

/-- C5 (what `Encrypt` writes and what it leaves). For a message whose payload
is present: if `Marshal` of the envelope built from the message's timestamp,
nonce and payload succeeds and `Seal` of those bytes followed by the signature
bytes succeeds, `Encrypt` returns nil, `Encrypted` is the sealed bytes, and
payload, nonce, timestamp and signature are unchanged; if `Marshal` or `Seal`
fails, `Encrypt` returns that error and the message is unchanged. -/
theorem Encrypt_post_and_frame (L : Lib T Time KeyPair) (m : SecureMessage T Time)
    (sender : KeyPair) (recipientPub : String) (p : T) (hp : m.Payload = some p) :
    (∀ plain enc,
      L.Marshal { Timestamp := m.Timestamp, Nonce := m.Nonce, Payload := p } = .ok plain →
      L.Seal sender (plain ++ m.Signature) recipientPub = .ok enc →
      (Encrypt L m sender recipientPub).out = .ok () ∧
        (Encrypt L m sender recipientPub).msg.Encrypted = enc ∧
        (Encrypt L m sender recipientPub).msg.Payload = m.Payload ∧
        (Encrypt L m sender recipientPub).msg.Nonce = m.Nonce ∧
        (Encrypt L m sender recipientPub).msg.Timestamp = m.Timestamp ∧
        (Encrypt L m sender recipientPub).msg.Signature = m.Signature) ∧
    (∀ e,
      L.Marshal { Timestamp := m.Timestamp, Nonce := m.Nonce, Payload := p } = .error e →
      (Encrypt L m sender recipientPub).out = .err e ∧
        (Encrypt L m sender recipientPub).msg = m) ∧
    (∀ plain e,
      L.Marshal { Timestamp := m.Timestamp, Nonce := m.Nonce, Payload := p } = .ok plain →
      L.Seal sender (plain ++ m.Signature) recipientPub = .error e →
      (Encrypt L m sender recipientPub).out = .err e ∧
        (Encrypt L m sender recipientPub).msg = m) := by
  refine ⟨?_, ?_, ?_⟩
  · intro plain enc hmar hseal
    simp [Encrypt, hp, hmar, hseal]
  · intro e hmar
    simp [Encrypt, hp, hmar]
  · intro plain e hmar hseal
    simp [Encrypt, hp, hmar, hseal]

/-- C7 (what `NewSecureMessage` returns). For a present payload `P` and a signer
`k`, when the random read returns: the nonce buffer has 16 bytes and is exactly
the bytes read when the source supplied all 16; the nonce is its hex encoding,
that is, 32 characters, all from `0123456789abcdef`, that `hex.DecodeString`
turns back into the buffer. The call returns an error exactly when `Marshal` of
the envelope fails or `Sign` of the encoded bytes fails, and it does not fault.
Otherwise it returns the message with payload `P`, timestamp `Now().UTC()`, that
nonce, the signature `Sign` returned for the encoding of exactly that timestamp,
nonce and `P`, and an empty `Encrypted`. -/
theorem NewSecureMessage_post (L : Lib T Time KeyPair) (P : T) (k : KeyPair) (got : Bytes)
    (err : Option Error) (hread : L.Read 16 = .returned got err) :
    let buf := readInto (make 16) got
    let wrapped : envelope T Time :=
      { Timestamp := L.UTC L.Now, Nonce := EncodeToString buf, Payload := P }
    buf.length = 16 ∧
    (got.length = 16 → buf = got) ∧
    (EncodeToString buf).length = 32 ∧
    (∀ c ∈ (EncodeToString buf).data, c ∈ "0123456789abcdef".data) ∧
    DecodeString (EncodeToString buf) = some buf ∧
    ((∃ e, (NewSecureMessage L (some P) (some k)).out = .err e) ↔
      ((∃ e, L.Marshal wrapped = .error e) ∨
        ∃ encoded e, L.Marshal wrapped = .ok encoded ∧ L.Sign k encoded = .error e)) ∧
    (∀ f, (NewSecureMessage L (some P) (some k)).out ≠ .crash f) ∧
    (∀ encoded sig, L.Marshal wrapped = .ok encoded → L.Sign k encoded = .ok sig →
      (NewSecureMessage L (some P) (some k)).out
        = .ok { Payload := some P, Timestamp := L.UTC L.Now, Nonce := EncodeToString buf,
                Signature := sig, Encrypted := [] }) := by
  intro buf wrapped
  have hbuf : buf.length = 16 := by
    show (readInto (make 16) got).length = 16
    rw [length_readInto]
    simp [make]
  refine ⟨hbuf, ?_, ?_, ?_, DecodeString_EncodeToString buf, ?_⟩
  · intro h
    exact readInto_full _ _ (by simpa [make] using h)
  · rw [length_EncodeToString, hbuf]
  · intro c hc
    exact EncodeToString_alphabet buf c hc
  · rw [NewSecureMessage_returned L (some P) (some k) got err hread]
    simp only
    cases hmar : L.Marshal wrapped with
    | error e =>
      refine ⟨⟨fun _ => Or.inl ⟨e, rfl⟩, fun _ => ⟨e, rfl⟩⟩, (fun f h => by cases h), ?_⟩
      intro encoded sig h
      cases h
    | ok encoded =>
      simp only
      cases hsig : L.Sign k encoded with
      | error e =>
        refine ⟨⟨fun _ => Or.inr ⟨encoded, e, rfl, hsig⟩, fun _ => ⟨e, rfl⟩⟩,
          (fun f h => by cases h), ?_⟩
        intro encoded' sig h hs
        cases h
        rw [hsig] at hs
        cases hs
      | ok sig =>
        refine ⟨⟨?_, ?_⟩, (fun f h => by cases h), ?_⟩
        · rintro ⟨e, h⟩
          cases h
        · rintro (⟨e, h⟩ | ⟨encoded', e, h, hs⟩)
          · cases h
          · cases h
            rw [hsig] at hs
            cases hs
        · intro encoded' sig' h hs
          cases h
          rw [hsig] at hs
          cases hs
          rfl

/-- C8, the code at a failing random source. When `crypto/rand.Read` returns
with no bytes supplied and an error (possible up to Go 1.23),
`NewSecureMessage` still returns a signed message; its nonce is the hex encoding
of the untouched zero buffer. When `crypto/rand.Read` aborts the process on the
failing reader (Go 1.24 and later), no message is returned and `Marshal` and
`Sign` are never called. -/
theorem NewSecureMessage_read_error_ignored :
    demoNoEntropy.Read 16
        = .returned [] (some (.lib "read /dev/urandom: input/output error")) ∧
      (NewSecureMessage demoNoEntropy (some 5) (some 1)).out
        = .ok { Payload := some 5, Nonce := "00000000000000000000000000000000",
                Timestamp := 7, Signature := List.replicate 64 1, Encrypted := [] } ∧
      demoFatal.Read 16 = .fatal ∧
      (NewSecureMessage demoFatal (some 5) (some 1)).out = .crash .readFatal ∧
      (NewSecureMessage demoFatal (some 5) (some 1)).calls = [.Now, .Read 16] := by
  refine ⟨rfl, ?_, rfl, rfl, rfl⟩
  decide

/-- C10, the code at an absent payload. `Encrypt` on a message that holds only
`Encrypted`, and `NewSecureMessage` with a nil payload, fault: they return
neither nil nor an error. `Encrypt` faults on the nil dereference before any
library call. `NewSecureMessage`, whatever the signer, has read the clock and
the random source by then and faults on the nil dereference when the read
returned (when the read aborted the process, that is the fault). -/
theorem absent_payload_faults (L : Lib T Time KeyPair) (enc : Bytes) (k : KeyPair)
    (signer : Option KeyPair) (recipientPub : String) :
    (Encrypt L (fresh L enc) k recipientPub).out = .crash .nilDereference ∧
    (Encrypt L (fresh L enc) k recipientPub).calls = [] ∧
    (NewSecureMessage L none signer).out
      = (match L.Read 16 with
        | .returned _ _ => .crash .nilDereference
        | .fatal => .crash .readFatal) ∧
    (NewSecureMessage L none signer).calls = [.Now, .Read 16] := by
  refine ⟨rfl, rfl, ?_, ?_⟩
  · cases hread : L.Read 16 with
    | fatal => rw [NewSecureMessage_fatal L none signer hread]
    | returned got err => rw [NewSecureMessage_returned L none signer got err hread]
  · cases hread : L.Read 16 with
    | fatal => rw [NewSecureMessage_fatal L none signer hread]
    | returned got err => rw [NewSecureMessage_returned L none signer got err hread]

/-! ## The signature field on a failed `Decrypt` -/

/-- C9 as stated fails. Opening the received message gives two content bytes
and 64 further bytes; `Verify` rejects them, `Decrypt` returns that error, and
the signature field, empty before the call, now holds the 64 rejected bytes. -/
theorem Decrypt_failure_changes_signature :
    (Decrypt demo demoForged 2 "alice" "alice").out
        = .err (.lib "nkeys: signature verification failed") ∧
      demoForged.Signature = [] ∧
      (Decrypt demo demoForged 2 "alice" "alice").msg.Signature = List.replicate 64 9 ∧
      (Decrypt demo demoForged 2 "alice" "alice").msg.Signature ≠ demoForged.Signature := by
  decide

/-- C9, amended. When `Decrypt` returns an error: if opening failed or the
plaintext has fewer than 64 bytes, the signature field is the same as before the
call; if the plaintext `d` has at least 64 bytes (the failure is in key parsing,
verification or decoding), the signature field holds the last 64 bytes of `d`.
In every failing case payload, nonce, timestamp and `Encrypted` are the same as
before the call. -/
theorem Decrypt_failure_signature (L : Lib T Time KeyPair) (m : SecureMessage T Time)
    (receiver : KeyPair) (senderEncPub senderSigPub : String) (e : Error)
    (hfail : (Decrypt L m receiver senderEncPub senderSigPub).out = .err e) :
    (∀ e', L.Open receiver m.Encrypted senderEncPub = .error e' →
      (Decrypt L m receiver senderEncPub senderSigPub).msg.Signature = m.Signature) ∧
    (∀ d, L.Open receiver m.Encrypted senderEncPub = .ok d → d.length < SignatureSize →
      (Decrypt L m receiver senderEncPub senderSigPub).msg.Signature = m.Signature) ∧
    (∀ d, L.Open receiver m.Encrypted senderEncPub = .ok d → SignatureSize ≤ d.length →
      (Decrypt L m receiver senderEncPub senderSigPub).msg.Signature
        = d.drop (d.length - SignatureSize)) ∧
    (Decrypt L m receiver senderEncPub senderSigPub).msg.Payload = m.Payload ∧
    (Decrypt L m receiver senderEncPub senderSigPub).msg.Nonce = m.Nonce ∧
    (Decrypt L m receiver senderEncPub senderSigPub).msg.Timestamp = m.Timestamp ∧
    (Decrypt L m receiver senderEncPub senderSigPub).msg.Encrypted = m.Encrypted := by
  cases hopen : L.Open receiver m.Encrypted senderEncPub with
  | error e' =>
    rw [Decrypt_open_error L m receiver senderEncPub senderSigPub e' hopen]
    exact ⟨fun _ _ => rfl, (fun _ h => by cases h), (fun _ h => by cases h), rfl, rfl, rfl, rfl⟩
  | ok d =>
    by_cases hshort : d.length < SignatureSize
    · rw [Decrypt_short L m receiver senderEncPub senderSigPub d hopen hshort]
      refine ⟨fun _ _ => rfl, fun _ _ _ => rfl, ?_, rfl, rfl, rfl, rfl⟩
      intro d' hd hlen
      cases hd
      omega
    · have hlen : SignatureSize ≤ d.length := Nat.not_lt.mp hshort
      cases hkey : L.FromPublicKey senderSigPub with
      | error e' =>
        rw [Decrypt_key_error L m receiver senderEncPub senderSigPub d e' hopen hlen hkey]
        refine ⟨(fun _ h => by cases h), ?_, ?_, rfl, rfl, rfl, rfl⟩
        · intro d' hd hs
          cases hd
          omega
        · intro d' hd _
          cases hd
          rfl
      | ok k =>
        cases hver : L.Verify k (d.take (d.length - SignatureSize))
            (d.drop (d.length - SignatureSize)) with
        | some e' =>
          rw [Decrypt_verify_error L m receiver senderEncPub senderSigPub d k e' hopen hlen hkey
            hver]
          refine ⟨(fun _ h => by cases h), ?_, ?_, rfl, rfl, rfl, rfl⟩
          · intro d' hd hs
            cases hd
            omega
          · intro d' hd _
            cases hd
            rfl
        | none =>
          cases hdec : L.Unmarshal (d.take (d.length - SignatureSize)) with
          | error e' =>
            rw [Decrypt_unmarshal_error L m receiver senderEncPub senderSigPub d k e' hopen hlen
              hkey hver hdec]
            refine ⟨(fun _ h => by cases h), ?_, ?_, rfl, rfl, rfl, rfl⟩
            · intro d' hd hs
              cases hd
              omega
            · intro d' hd _
              cases hd
              rfl
          | ok w =>
            rw [Decrypt_success L m receiver senderEncPub senderSigPub d k w hopen hlen hkey
              hver hdec] at hfail
            cases hfail

/-! ## End to end -/

/-- C1 (round trip). Let `m` be the message `NewSecureMessage(P, senderSig)`
returned and let `Encrypt(senderEnc, recipientEncPub)` succeed on it. Suppose
the keys are paired: `senderSig` signs with 64-byte signatures, `Open` with the
recipient key and the sender public key undoes `Seal` with the sender key for
the recipient public key, the sender signing public key parses to a key under
which `Verify` accepts what `senderSig` signs, and `Unmarshal` undoes `Marshal`
on the envelope of `m`. Then `Decrypt` on a fresh message holding only the
sealed bytes returns nil, and that message then has payload `P`, the nonce and
timestamp of `m`, and the signature of `m`. -/
theorem roundtrip (L : Lib T Time KeyPair) (P : T)
    (senderSig senderEnc recipientEnc verifier : KeyPair)
    (recipientEncPub senderEncPub senderSigPub : String) (m : SecureMessage T Time)
    (hnew : (NewSecureMessage L (some P) (some senderSig)).out = .ok m)
    (henc : (Encrypt L m senderEnc recipientEncPub).out = .ok ())
    (hsize : ∀ input sig, L.Sign senderSig input = .ok sig → sig.length = SignatureSize)
    (hopen : ∀ input c, L.Seal senderEnc input recipientEncPub = .ok c →
      L.Open recipientEnc c senderEncPub = .ok input)
    (hkey : L.FromPublicKey senderSigPub = .ok verifier)
    (hver : ∀ input sig, L.Sign senderSig input = .ok sig → L.Verify verifier input sig = none)
    (hcodec : ∀ data,
      L.Marshal { Timestamp := m.Timestamp, Nonce := m.Nonce, Payload := P } = .ok data →
      L.Unmarshal data = .ok { Timestamp := m.Timestamp, Nonce := m.Nonce, Payload := P }) :
    (Decrypt L (fresh L (Encrypt L m senderEnc recipientEncPub).msg.Encrypted) recipientEnc
        senderEncPub senderSigPub).out = .ok () ∧
      (Decrypt L (fresh L (Encrypt L m senderEnc recipientEncPub).msg.Encrypted) recipientEnc
        senderEncPub senderSigPub).msg.Payload = some P ∧
      (Decrypt L (fresh L (Encrypt L m senderEnc recipientEncPub).msg.Encrypted) recipientEnc
        senderEncPub senderSigPub).msg.Nonce = m.Nonce ∧
      (Decrypt L (fresh L (Encrypt L m senderEnc recipientEncPub).msg.Encrypted) recipientEnc
        senderEncPub senderSigPub).msg.Timestamp = m.Timestamp ∧
      (Decrypt L (fresh L (Encrypt L m senderEnc recipientEncPub).msg.Encrypted) recipientEnc
        senderEncPub senderSigPub).msg.Signature = m.Signature ∧
      (Encrypt L m senderEnc recipientEncPub).msg.Signature = m.Signature := by
  obtain ⟨encoded, hp, -, -, -, hmar, hsig⟩ := NewSecureMessage_ok_inv L P senderSig m hnew
  obtain ⟨hseal, hsame⟩ :=
    Encrypt_ok_inv L m senderEnc recipientEncPub P encoded hp hmar henc
  have hlen := hsize encoded m.Signature hsig
  have hd : L.Open recipientEnc
      (fresh L (Encrypt L m senderEnc recipientEncPub).msg.Encrypted).Encrypted senderEncPub
      = .ok (encoded ++ m.Signature) := hopen _ _ hseal
  have hge : SignatureSize ≤ (encoded ++ m.Signature).length := by
    simp only [List.length_append]
    omega
  have hv : L.Verify verifier
      ((encoded ++ m.Signature).take ((encoded ++ m.Signature).length - SignatureSize))
      ((encoded ++ m.Signature).drop ((encoded ++ m.Signature).length - SignatureSize))
      = none := by
    rw [take_content _ _ hlen, drop_signature _ _ hlen]
    exact hver _ _ hsig
  have hu : L.Unmarshal
      ((encoded ++ m.Signature).take ((encoded ++ m.Signature).length - SignatureSize))
      = .ok { Timestamp := m.Timestamp, Nonce := m.Nonce, Payload := P } := by
    rw [take_content _ _ hlen]
    exact hcodec _ hmar
  rw [Decrypt_success L _ recipientEnc senderEncPub senderSigPub _ verifier _ hd hge hkey hv hu]
  exact ⟨rfl, rfl, rfl, rfl, drop_signature _ _ hlen, hsame⟩

/-- C4 (wrong signer key). Let `m` be the message `NewSecureMessage(P,
senderSig)` returned and let `Encrypt(senderEnc, recipientEncPub)` succeed on
it, where `senderSig` signs with 64-byte signatures and `Open` with the
recipient key and the sender public key undoes `Seal`. If the signing public key
given to `Decrypt` parses, but to a key under which `Verify` rejects what
`senderSig` signs, then `Decrypt` on any message holding the sealed bytes
returns the error `Verify` returned for the encoded envelope and the signature
of `m`, `Unmarshal` is never called, and payload, nonce and timestamp of the
receiving message are as before the call. -/
theorem wrong_signer_rejected (L : Lib T Time KeyPair) (P : T)
    (senderSig senderEnc recipientEnc wrongKey : KeyPair)
    (recipientEncPub senderEncPub wrongSigPub : String) (m rcv : SecureMessage T Time)
    (hnew : (NewSecureMessage L (some P) (some senderSig)).out = .ok m)
    (henc : (Encrypt L m senderEnc recipientEncPub).out = .ok ())
    (hrcv : rcv.Encrypted = (Encrypt L m senderEnc recipientEncPub).msg.Encrypted)
    (hsize : ∀ input sig, L.Sign senderSig input = .ok sig → sig.length = SignatureSize)
    (hopen : ∀ input c, L.Seal senderEnc input recipientEncPub = .ok c →
      L.Open recipientEnc c senderEncPub = .ok input)
    (hkey : L.FromPublicKey wrongSigPub = .ok wrongKey)
    (hrej : ∀ input sig, L.Sign senderSig input = .ok sig →
      L.Verify wrongKey input sig ≠ none) :
    (∃ encoded e,
      L.Marshal { Timestamp := m.Timestamp, Nonce := m.Nonce, Payload := P } = .ok encoded ∧
      L.Verify wrongKey encoded m.Signature = some e ∧
      (Decrypt L rcv recipientEnc senderEncPub wrongSigPub).out = .err e) ∧
    (∀ data,
      Call.Unmarshal data ∉ (Decrypt L rcv recipientEnc senderEncPub wrongSigPub).calls) ∧
    (Decrypt L rcv recipientEnc senderEncPub wrongSigPub).msg.Payload = rcv.Payload ∧
    (Decrypt L rcv recipientEnc senderEncPub wrongSigPub).msg.Nonce = rcv.Nonce ∧
    (Decrypt L rcv recipientEnc senderEncPub wrongSigPub).msg.Timestamp = rcv.Timestamp := by
  obtain ⟨encoded, hp, -, -, -, hmar, hsig⟩ := NewSecureMessage_ok_inv L P senderSig m hnew
  obtain ⟨hseal, -⟩ := Encrypt_ok_inv L m senderEnc recipientEncPub P encoded hp hmar henc
  have hlen := hsize encoded m.Signature hsig
  have hd : L.Open recipientEnc rcv.Encrypted senderEncPub = .ok (encoded ++ m.Signature) := by
    rw [hrcv]
    exact hopen _ _ hseal
  have hge : SignatureSize ≤ (encoded ++ m.Signature).length := by
    simp only [List.length_append]
    omega
  cases hv : L.Verify wrongKey encoded m.Signature with
  | none => exact absurd hv (hrej _ _ hsig)
  | some e =>
    have hv' : L.Verify wrongKey
        ((encoded ++ m.Signature).take ((encoded ++ m.Signature).length - SignatureSize))
        ((encoded ++ m.Signature).drop ((encoded ++ m.Signature).length - SignatureSize))
        = some e := by
      rw [take_content _ _ hlen, drop_signature _ _ hlen]
      exact hv
    rw [Decrypt_verify_error L rcv recipientEnc senderEncPub wrongSigPub _ wrongKey e hd hge hkey
      hv']
    refine ⟨⟨encoded, e, hmar, hv, rfl⟩, ?_, rfl, rfl, rfl⟩
    intro data hmem
    simp at hmem

end Proofs

/-! ## The theorems at the small library -/

theorem demo_sign_size (k : Nat) (input sig : Bytes) (h : demo.Sign k input = .ok sig) :
    sig.length = SignatureSize := by
  simp only [demo] at h
  split at h
  · cases h
  · cases h
    simp [SignatureSize]

theorem demo_open_seal (k k' : Nat) (input c : Bytes) (h : demo.Seal k input "bob" = .ok c) :
    demo.Open k' c "alice" = .ok input := by
  simp only [demo] at h
  split at h
  · cases h
  · cases h
    rfl

theorem demo_verify_own (input sig : Bytes) (h : demo.Sign 1 input = .ok sig) :
    demo.Verify 1 input sig = none := by
  cases h
  rfl

theorem demo_verify_other (input sig : Bytes) (h : demo.Sign 1 input = .ok sig) :
    demo.Verify 2 input sig ≠ none := by
  cases h
  show (if (List.replicate 64 (Fin.ofNat 1) : Bytes) = List.replicate 64 (Fin.ofNat 2) then none
    else some (Error.lib "nkeys: signature verification failed")) ≠ none
  rw [if_neg (by decide)]
  exact Option.some_ne_none _

/-- The truncation theorem at a three-byte plaintext and a key string that does
not parse. -/
theorem Decrypt_truncated_witness :
    demo.Open 2 demoShort.Encrypted "alice" = .ok [1, 2, 3] ∧
      (Decrypt demo demoShort 2 "alice" "not a key").out
        = .err (.errorsNew "invalid decrypted length") ∧
      (Decrypt demo demoShort 2 "alice" "not a key").calls
        = [.Open 2 demoShort.Encrypted "alice"] ∧
      (Decrypt demo demoShort 2 "alice" "not a key").msg = demoShort :=
  ⟨rfl, Decrypt_truncated demo demoShort 2 "alice" "not a key" [1, 2, 3] rfl (by decide)⟩

/-- The verify-before-decode theorem at a plaintext whose last 64 bytes no key
accepts. -/
theorem Decrypt_verify_before_decode_witness :
    (Decrypt demo demoForged 2 "alice" "alice").out
        = .err (.lib "nkeys: signature verification failed") ∧
      (Decrypt demo demoForged 2 "alice" "alice").calls
        = [.Open 2 demoForged.Encrypted "alice", .FromPublicKey "alice",
           .Verify 1 [7, 5] (List.replicate 64 9)] ∧
      (∀ data, Call.Unmarshal data ∉ (Decrypt demo demoForged 2 "alice" "alice").calls) ∧
      (Decrypt demo demoForged 2 "alice" "alice").msg.Payload = none ∧
      (Decrypt demo demoForged 2 "alice" "alice").msg.Nonce = "" ∧
      (Decrypt demo demoForged 2 "alice" "alice").msg.Timestamp = 0 :=
  Decrypt_verify_before_decode demo demoForged 2 "alice" "alice" (7 :: 5 :: List.replicate 64 9) 1
    (.lib "nkeys: signature verification failed") rfl (by decide) rfl rfl

/-- The success characterisation at an accepted message and at a truncated
one. -/
theorem Decrypt_success_iff_witness :
    (Decrypt demo demoGood 2 "alice" "alice").out = .ok () ∧
      (Decrypt demo demoGood 2 "alice" "alice").msg.Signature = List.replicate 64 1 ∧
      (Decrypt demo demoGood 2 "alice" "alice").msg.Payload = some 5 ∧
      (Decrypt demo demoShort 2 "alice" "alice").out ≠ .ok () := by
  have hok : (Decrypt demo demoGood 2 "alice" "alice").out = .ok () :=
    (Decrypt_success_iff demo demoGood 2 "alice" "alice").1.2
      ⟨7 :: 5 :: List.replicate 64 1, 1, ⟨7, "", 5⟩, rfl, by decide, rfl, rfl, rfl⟩
  have hpost := (Decrypt_success_iff demo demoGood 2 "alice" "alice").2
    (7 :: 5 :: List.replicate 64 1) ⟨7, "", 5⟩ hok rfl rfl
  refine ⟨hok, hpost.1, hpost.2.2.1, ?_⟩
  intro h
  obtain ⟨d, k, w, hd, hlen, -⟩ :=
    (Decrypt_success_iff demo demoShort 2 "alice" "alice").1.1 h
  cases hd
  exact absurd hlen (by decide)

/-- The `Encrypt` theorem at a signed message, once sealed for `"bob"` and once
with a recipient key that `Seal` refuses. -/
theorem Encrypt_post_and_frame_witness :
    demoSigned.Payload = some 5 ∧
      (Encrypt demo demoSigned 1 "bob").out = .ok () ∧
      (Encrypt demo demoSigned 1 "bob").msg.Encrypted
        = 0 :: 7 :: 5 :: 97 :: 98 :: List.replicate 64 1 ∧
      (Encrypt demo demoSigned 1 "bob").msg.Payload = demoSigned.Payload ∧
      (Encrypt demo demoSigned 1 "bob").msg.Nonce = demoSigned.Nonce ∧
      (Encrypt demo demoSigned 1 "bob").msg.Timestamp = demoSigned.Timestamp ∧
      (Encrypt demo demoSigned 1 "bob").msg.Signature = demoSigned.Signature ∧
      (Encrypt demo demoSigned 1 "").out = .err (.lib "nkeys: invalid public key") ∧
      (Encrypt demo demoSigned 1 "").msg = demoSigned := by
  have h1 := (Encrypt_post_and_frame demo demoSigned 1 "bob" 5 rfl).1 [7, 5, 97, 98]
    (0 :: 7 :: 5 :: 97 :: 98 :: List.replicate 64 1) rfl rfl
  have h2 := (Encrypt_post_and_frame demo demoSigned 1 "" 5 rfl).2.2 [7, 5, 97, 98]
    (.lib "nkeys: invalid public key") rfl rfl
  exact ⟨rfl, h1.1, h1.2.1, h1.2.2.1, h1.2.2.2.1, h1.2.2.2.2.1, h1.2.2.2.2.2, h2.1, h2.2⟩

/-- The amended signature theorem at a plaintext whose last 64 bytes no key
accepts. -/
theorem Decrypt_failure_signature_witness :
    (Decrypt demo demoForged 2 "alice" "alice").out
        = .err (.lib "nkeys: signature verification failed") ∧
      (Decrypt demo demoForged 2 "alice" "alice").msg.Signature = List.replicate 64 9 ∧
      (Decrypt demo demoForged 2 "alice" "alice").msg.Payload = demoForged.Payload :=
  have h := Decrypt_failure_signature demo demoForged 2 "alice" "alice"
    (.lib "nkeys: signature verification failed") (by decide)
  ⟨by decide, h.2.2.1 (7 :: 5 :: List.replicate 64 9) rfl (by decide), h.2.2.2.1⟩

/-- The `NewSecureMessage` theorem at key pair 1, which signs, and at key pair 0,
which fails to sign. -/
theorem NewSecureMessage_post_witness :
    demo.Read 16 = .returned (List.replicate 16 0xab) none ∧
      (NewSecureMessage demo (some 5) (some 1)).out = .ok demoSent ∧
      demoSent.Nonce.length = 32 ∧
      DecodeString demoSent.Nonce = some (List.replicate 16 0xab) ∧
      (∃ e, (NewSecureMessage demo (some 5) (some 0)).out = .err e) := by
  have h := NewSecureMessage_post demo 5 1 (List.replicate 16 0xab) none rfl
  have h0 := NewSecureMessage_post demo 5 0 (List.replicate 16 0xab) none rfl
  dsimp only at h h0
  refine ⟨rfl, h.2.2.2.2.2.2.2 _ _ rfl rfl, h.2.2.1, h.2.2.2.2.1, ?_⟩
  exact h0.2.2.2.2.2.1.2 (Or.inr ⟨_, _, rfl, rfl⟩)

/-- The round trip from key pair 1 to key pair 2 with the small library. -/
theorem roundtrip_witness :
    (NewSecureMessage demo (some 5) (some 1)).out = .ok demoSent ∧
      (Encrypt demo demoSent 1 "bob").out = .ok () ∧
      (Decrypt demo (fresh demo (Encrypt demo demoSent 1 "bob").msg.Encrypted) 2 "alice"
        "alice").out = .ok () ∧
      (Decrypt demo (fresh demo (Encrypt demo demoSent 1 "bob").msg.Encrypted) 2 "alice"
        "alice").msg.Payload = some 5 ∧
      (Decrypt demo (fresh demo (Encrypt demo demoSent 1 "bob").msg.Encrypted) 2 "alice"
        "alice").msg.Nonce = demoSent.Nonce ∧
      (Decrypt demo (fresh demo (Encrypt demo demoSent 1 "bob").msg.Encrypted) 2 "alice"
        "alice").msg.Timestamp = demoSent.Timestamp ∧
      (Decrypt demo (fresh demo (Encrypt demo demoSent 1 "bob").msg.Encrypted) 2 "alice"
        "alice").msg.Signature = demoSent.Signature ∧
      (Encrypt demo demoSent 1 "bob").msg.Signature = demoSent.Signature := by
  have hnew : (NewSecureMessage demo (some 5) (some 1)).out = .ok demoSent := by decide
  have henc : (Encrypt demo demoSent 1 "bob").out = .ok () := by decide
  exact ⟨hnew, henc,
    roundtrip demo 5 1 1 2 1 "bob" "alice" "alice" demoSent hnew henc (demo_sign_size 1)
      (demo_open_seal 1 2) rfl demo_verify_own
      (fun data h => by
        have h' : demoMarshal ⟨7, "abababababababababababababababab", 5⟩ = .ok data := h
        have hb : demoMarshal ⟨7, "abababababababababababababababab", 5⟩
            = .ok (7 :: 5 :: (List.replicate 16 [97, 98]).flatten) := rfl
        rw [hb] at h'
        cases h'
        rfl)⟩

/-- The wrong-signer theorem: key pair 1 signs, the receiver verifies under the
public key of key pair 2. -/
theorem wrong_signer_rejected_witness :
    (NewSecureMessage demo (some 5) (some 1)).out = .ok demoSent ∧
      (Encrypt demo demoSent 1 "bob").out = .ok () ∧
      demo.FromPublicKey "bob" = .ok 2 ∧
      (Decrypt demo (fresh demo (Encrypt demo demoSent 1 "bob").msg.Encrypted) 2 "alice"
        "bob").out = .err (.lib "nkeys: signature verification failed") ∧
      (Decrypt demo (fresh demo (Encrypt demo demoSent 1 "bob").msg.Encrypted) 2 "alice"
        "bob").msg.Payload = none := by
  have hnew : (NewSecureMessage demo (some 5) (some 1)).out = .ok demoSent := by decide
  have henc : (Encrypt demo demoSent 1 "bob").out = .ok () := by decide
  obtain ⟨⟨encoded, e, -, hv, hout⟩, -, hpay, -, -⟩ :=
    wrong_signer_rejected demo 5 1 1 2 2 "bob" "alice" "bob" demoSent
      (fresh demo (Encrypt demo demoSent 1 "bob").msg.Encrypted) hnew henc rfl
      (demo_sign_size 1) (demo_open_seal 1 2) rfl demo_verify_other
  refine ⟨hnew, henc, rfl, ?_, hpay⟩
  have he : demo.Verify 2 encoded demoSent.Signature
      = some (.lib "nkeys: signature verification failed") := rfl
  rw [he] at hv
  cases hv
  exact hout

end natssecuremsg
